import Mathlib

/-!
A shallow embedding of `mortgage_calculator` from `src/MortgageCalculator.py`,
together with proofs of the amortization-engine properties stated in the
repository's specification.

Modelling conventions: Python floats are idealized as exact rationals (`ℚ`);
Python division (which raises `ZeroDivisionError` on a zero divisor) and
`float ** int` (which raises `ZeroDivisionError` on `0.0 ** e` with `e < 0`)
are modelled by explicit error propagation through `Except`; `raise
ValueError` in the unknown-policy branch is modelled by the `valueError`
variant.  The literal `0.01` of the final-month adjustment is the rational
`1/100`.
-/

/-- The Python exceptions the function can raise. -/
inductive PyError where
  | zeroDivisionError
  | valueError
deriving DecidableEq

/-- One tuple `(month, payment, principal, interest, remaining_balance)` of
the `monthly_details` list built by `mortgage_calculator`. -/
structure PaymentScheduleEntry where
  month : ℤ
  payment : ℚ
  principal : ℚ
  interest : ℚ
  remaining_balance : ℚ
deriving DecidableEq

/-- Python division `a / b`: raises `ZeroDivisionError` when `b == 0`. -/
def pydiv (a b : ℚ) : Except PyError ℚ :=
  if b = 0 then .error .zeroDivisionError else .ok (a / b)

/-- Python power `b ** e` (float base, int exponent): raises
`ZeroDivisionError` on `0.0 ** e` with `e < 0`, otherwise the exact value. -/
def pypow (b : ℚ) (e : ℤ) : Except PyError ℚ :=
  if b = 0 ∧ e < 0 then .error .zeroDivisionError else .ok (b ^ e)

/-- The month indices `range(1, total_months + 1)` iterated by both loops. -/
def monthsList (total_months : ℤ) : List ℤ :=
  (List.range total_months.toNat).map fun i => Int.ofNat i + 1

/-- The `equal_installment` loop of `mortgage_calculator` (lines 47-58 of the
source): each month computes `interest = balance * r`, `principal = payment -
interest`, deducts the principal, and on month `total_months` folds a residual
smaller than `0.01` into the principal portion, forcing the balance to `0`. -/
def eiLoop (r mp : ℚ) (total_months : ℤ) :
    List ℤ → ℚ → List PaymentScheduleEntry
  | [], _ => []
  | m :: rest, rb =>
    let interest := rb * r
    let principal := mp - interest
    let rb1 := rb - principal
    if m = total_months ∧ |rb1| < 1/100 then
      ⟨m, mp, principal + rb1, interest, 0⟩ :: eiLoop r mp total_months rest 0
    else
      ⟨m, mp, principal, interest, rb1⟩ :: eiLoop r mp total_months rest rb1

/-- The loop state of the `equal_principal` branch: the running balance, the
`first_month_payment` and `last_month_payment` slots (initialized `None` in
the source), and the accumulated `total_payment`. -/
structure EpState where
  remaining : ℚ
  first_month_payment : Option ℚ
  last_month_payment : Option ℚ
  total_payment : ℚ
deriving DecidableEq

/-- The `equal_principal` loop of `mortgage_calculator` (lines 73-85 of the
source): each month computes `interest = balance * r`, `payment =
monthly_principal + interest`, deducts the constant `monthly_principal`, and
records the first/last payments and the running total. -/
def epLoop (r monthly_principal : ℚ) (total_months : ℤ) :
    List ℤ → EpState → List PaymentScheduleEntry × EpState
  | [], s => ([], s)
  | m :: rest, s =>
    let interest := s.remaining * r
    let payment := monthly_principal + interest
    let s1 : EpState :=
      { remaining := s.remaining - monthly_principal
        first_month_payment :=
          if m = 1 then some payment else s.first_month_payment
        last_month_payment :=
          if m = total_months then some payment else s.last_month_payment
        total_payment := s.total_payment + payment }
    let res := epLoop r monthly_principal total_months rest s1
    (⟨m, payment, monthly_principal, interest, s.remaining - monthly_principal⟩
        :: res.1,
      res.2)

/-- The value returned by `mortgage_calculator`: either the
`equal_installment` tuple `(monthly_payment, total_payment, monthly_details)`
or the `equal_principal` tuple `(first_month_payment, last_month_payment,
total_payment, monthly_details)`. -/
inductive MCResult where
  | equalInstallment (monthly_payment total_payment : ℚ)
      (monthly_details : List PaymentScheduleEntry)
  | equalPrincipal (first_month_payment last_month_payment : Option ℚ)
      (total_payment : ℚ) (monthly_details : List PaymentScheduleEntry)
deriving DecidableEq

/-- Shallow embedding of `mortgage_calculator(loan_amount,
annual_interest_rate, loan_years, payment_method)` (lines 5-90 of
`src/MortgageCalculator.py`). -/
def mortgage_calculator (loan_amount annual_interest_rate : ℚ) (loan_years : ℤ)
    (payment_method : String) : Except PyError MCResult :=
  let monthly_interest_rate := annual_interest_rate / 12
  let total_months : ℤ := loan_years * 12
  if payment_method = "equal_installment" then
    match
      (if monthly_interest_rate = 0 then
        pydiv loan_amount ((total_months : ℤ) : ℚ)
      else
        match pypow (1 + monthly_interest_rate) total_months with
        | .error e => .error e
        | .ok p =>
          pydiv (loan_amount * monthly_interest_rate * p) (p - 1)) with
    | .error e => .error e
    | .ok monthly_payment =>
      .ok (.equalInstallment monthly_payment
        (monthly_payment * ((total_months : ℤ) : ℚ))
        (eiLoop monthly_interest_rate monthly_payment total_months
          (monthsList total_months) loan_amount))
  else if payment_method = "equal_principal" then
    match pydiv loan_amount ((total_months : ℤ) : ℚ) with
    | .error e => .error e
    | .ok monthly_principal =>
      let res := epLoop monthly_interest_rate monthly_principal total_months
        (monthsList total_months) ⟨loan_amount, none, none, 0⟩
      .ok (.equalPrincipal res.2.first_month_payment res.2.last_month_payment
        res.2.total_payment res.1)
  else
    .error .valueError

/-- The `monthly_details` schedule of a result (empty when an exception was
raised). -/
def scheduleOf : Except PyError MCResult → List PaymentScheduleEntry
  | .ok (.equalInstallment _ _ d) => d
  | .ok (.equalPrincipal _ _ _ d) => d
  | .error _ => []

/-- Whether a call raised an exception. -/
def isErr : Except PyError MCResult → Bool
  | .error _ => true
  | .ok _ => false

/-! ### Structural lemmas about the `equal_installment` loop -/

/-- The pure balance recurrence of the loop: `k` applications of
`rb ↦ rb - (mp - rb * r)`, applied front-first as the loop does. -/
def eiIter (r mp : ℚ) : ℕ → ℚ → ℚ
  | 0, rb => rb
  | k + 1, rb => eiIter r mp k (rb - (mp - rb * r))

lemma eiLoop_month_map (r mp : ℚ) (n : ℤ) (ms : List ℤ) :
    ∀ rb, (eiLoop r mp n ms rb).map PaymentScheduleEntry.month = ms := by
  induction ms with
  | nil => intro rb; simp [eiLoop]
  | cons m rest ih =>
    intro rb
    simp only [eiLoop]
    split <;> simp [ih]

lemma eiLoop_length (r mp : ℚ) (n : ℤ) (ms : List ℤ) (rb : ℚ) :
    (eiLoop r mp n ms rb).length = ms.length := by
  have h := eiLoop_month_map r mp n ms rb
  simpa using congrArg List.length h

lemma eiLoop_payment (r mp : ℚ) (n : ℤ) (ms : List ℤ) :
    ∀ rb, ∀ e ∈ eiLoop r mp n ms rb, e.payment = mp := by
  induction ms with
  | nil => intro rb e he; simp [eiLoop] at he
  | cons m rest ih =>
    intro rb e he
    simp only [eiLoop] at he
    split at he <;>
      rcases List.mem_cons.mp he with h | h <;>
        first
          | (subst h; rfl)
          | exact ih _ e h

lemma eiLoop_interest_zero (mp : ℚ) (n : ℤ) (ms : List ℤ) :
    ∀ rb, ∀ e ∈ eiLoop 0 mp n ms rb, e.interest = 0 := by
  induction ms with
  | nil => intro rb e he; simp [eiLoop] at he
  | cons m rest ih =>
    intro rb e he
    simp only [eiLoop] at he
    split at he <;>
      rcases List.mem_cons.mp he with h | h <;>
        first
          | (subst h; simp)
          | exact ih _ e h

lemma eiLoop_append (r mp : ℚ) (n : ℤ) (xs ys : List ℤ) :
    ∀ rb, (∀ m ∈ xs, m ≠ n) →
      eiLoop r mp n (xs ++ ys) rb =
        eiLoop r mp n xs rb ++ eiLoop r mp n ys (eiIter r mp xs.length rb) := by
  induction xs with
  | nil => intro rb _; simp [eiLoop, eiIter]
  | cons m rest ih =>
    intro rb h
    have hm : m ≠ n := h m (List.mem_cons_self m rest)
    simp only [List.cons_append, eiLoop, hm, false_and, if_false,
      List.length_cons, List.append_eq]
    have hstep : eiIter r mp (rest.length + 1) rb =
        eiIter r mp rest.length (rb - (mp - rb * r)) := rfl
    rw [hstep, ih _ fun x hx => h x (List.mem_cons_of_mem m hx)]

lemma eiLoop_sum_principal (r mp : ℚ) (n : ℤ) (ms : List ℤ) :
    ∀ rb, (∀ m ∈ ms, m ≠ n) →
      ((eiLoop r mp n ms rb).map PaymentScheduleEntry.principal).sum =
        rb - eiIter r mp ms.length rb := by
  induction ms with
  | nil => intro rb _; simp [eiLoop, eiIter]
  | cons m rest ih =>
    intro rb h
    have hm : m ≠ n := h m (List.mem_cons_self m rest)
    simp only [eiLoop, hm, false_and, if_false, List.map_cons, List.sum_cons,
      List.length_cons]
    rw [ih _ fun x hx => h x (List.mem_cons_of_mem m hx)]
    have hstep : eiIter r mp (rest.length + 1) rb =
        eiIter r mp rest.length (rb - (mp - rb * r)) := rfl
    rw [hstep]
    ring

lemma eiIter_closed (r mp : ℚ) (hr : r ≠ 0) (k : ℕ) :
    ∀ rb, eiIter r mp k rb = (1 + r) ^ k * (rb - mp / r) + mp / r := by
  induction k with
  | zero => intro rb; simp [eiIter]
  | succ k ih =>
    intro rb
    show eiIter r mp k (rb - (mp - rb * r)) = _
    rw [ih]
    field_simp
    ring

lemma eiIter_zero_rate (mp : ℚ) (k : ℕ) :
    ∀ rb, eiIter 0 mp k rb = rb - (k : ℚ) * mp := by
  induction k with
  | zero => intro rb; simp [eiIter]
  | succ k ih =>
    intro rb
    show eiIter 0 mp k (rb - (mp - rb * 0)) = _
    rw [ih]
    push_cast
    ring

/-! ### Structural lemmas about the `equal_principal` loop -/

lemma epLoop_month_map (r mpr : ℚ) (n : ℤ) (ms : List ℤ) :
    ∀ s, ((epLoop r mpr n ms s).1).map PaymentScheduleEntry.month = ms := by
  induction ms with
  | nil => intro s; simp [epLoop]
  | cons m rest ih =>
    intro s
    simp only [epLoop]
    simp [ih]

lemma epLoop_length (r mpr : ℚ) (n : ℤ) (ms : List ℤ) (s : EpState) :
    ((epLoop r mpr n ms s).1).length = ms.length := by
  have h := epLoop_month_map r mpr n ms s
  simpa using congrArg List.length h

lemma epLoop_principal (r mpr : ℚ) (n : ℤ) (ms : List ℤ) :
    ∀ s, ∀ e ∈ (epLoop r mpr n ms s).1, e.principal = mpr := by
  induction ms with
  | nil => intro s e he; simp [epLoop] at he
  | cons m rest ih =>
    intro s e he
    simp only [epLoop] at he
    rcases List.mem_cons.mp he with h | h
    · subst h; rfl
    · exact ih _ e h

lemma epLoop_remaining (r mpr : ℚ) (n : ℤ) (ms : List ℤ) :
    ∀ s (i : ℕ) (h : i < ((epLoop r mpr n ms s).1).length),
      (((epLoop r mpr n ms s).1).get ⟨i, h⟩).remaining_balance =
        s.remaining - ((i : ℚ) + 1) * mpr := by
  induction ms with
  | nil => intro s i h; simp [epLoop] at h
  | cons m rest ih =>
    intro s i h
    match i with
    | 0 =>
      show (⟨m, mpr + s.remaining * r, mpr, s.remaining * r,
        s.remaining - mpr⟩ : PaymentScheduleEntry).remaining_balance = _
      push_cast
      ring
    | i + 1 =>
      have h2 : i < ((epLoop r mpr n rest
          ⟨s.remaining - mpr,
            if m = 1 then some (mpr + s.remaining * r)
              else s.first_month_payment,
            if m = n then some (mpr + s.remaining * r)
              else s.last_month_payment,
            s.total_payment + (mpr + s.remaining * r)⟩).1).length := by
        have := epLoop_length r mpr n (m :: rest) s
        have := epLoop_length r mpr n rest
          (⟨s.remaining - mpr,
            if m = 1 then some (mpr + s.remaining * r)
              else s.first_month_payment,
            if m = n then some (mpr + s.remaining * r)
              else s.last_month_payment,
            s.total_payment + (mpr + s.remaining * r)⟩)
        simp only [List.length_cons] at *
        omega
      have hrec := ih _ i h2
      have hget : (((epLoop r mpr n (m :: rest) s).1).get ⟨i + 1, h⟩) =
          (((epLoop r mpr n rest
            ⟨s.remaining - mpr,
              if m = 1 then some (mpr + s.remaining * r)
                else s.first_month_payment,
              if m = n then some (mpr + s.remaining * r)
                else s.last_month_payment,
              s.total_payment + (mpr + s.remaining * r)⟩).1).get ⟨i, h2⟩) :=
        rfl
      rw [hget, hrec]
      show s.remaining - mpr - _ = _
      push_cast
      ring

lemma epLoop_sum_principal (r mpr : ℚ) (n : ℤ) (ms : List ℤ) :
    ∀ s, (((epLoop r mpr n ms s).1).map PaymentScheduleEntry.principal).sum =
      (ms.length : ℚ) * mpr := by
  induction ms with
  | nil => intro s; simp [epLoop]
  | cons m rest ih =>
    intro s
    simp only [epLoop, List.map_cons, List.sum_cons, List.length_cons]
    rw [ih]
    push_cast
    ring

lemma epLoop_head_payment (r mpr : ℚ) (n : ℤ) (m : ℤ) (ms : List ℤ)
    (s : EpState) :
    ((epLoop r mpr n (m :: ms) s).1).head? =
      some ⟨m, mpr + s.remaining * r, mpr, s.remaining * r,
        s.remaining - mpr⟩ :=
  rfl

lemma epLoop_chain_le (r mpr : ℚ) (n : ℤ) (hr : 0 ≤ mpr * r) (ms : List ℤ) :
    ∀ s, List.Chain' (fun a b => b.payment ≤ a.payment)
      (epLoop r mpr n ms s).1 := by
  induction ms with
  | nil => intro s; simp [epLoop]
  | cons m rest ih =>
    intro s
    simp only [epLoop]
    rw [List.chain'_cons']
    refine ⟨?_, ih _⟩
    intro e2 he2
    match rest with
    | [] => simp [epLoop] at he2
    | m2 :: rest2 =>
      rw [epLoop_head_payment] at he2
      rcases Option.some_inj.mp he2 with rfl
      show _ + _ * r ≤ _ + _ * r
      have hexp : (s.remaining - mpr) * r = s.remaining * r - mpr * r := by
        ring
      simp only [EpState.remaining] at *
      rw [hexp]
      linarith

lemma epLoop_chain_lt (r mpr : ℚ) (n : ℤ) (hr : 0 < mpr * r) (ms : List ℤ) :
    ∀ s, List.Chain' (fun a b => b.payment < a.payment)
      (epLoop r mpr n ms s).1 := by
  induction ms with
  | nil => intro s; simp [epLoop]
  | cons m rest ih =>
    intro s
    simp only [epLoop]
    rw [List.chain'_cons']
    refine ⟨?_, ih _⟩
    intro e2 he2
    match rest with
    | [] => simp [epLoop] at he2
    | m2 :: rest2 =>
      rw [epLoop_head_payment] at he2
      rcases Option.some_inj.mp he2 with rfl
      show _ + _ * r < _ + _ * r
      have hexp : (s.remaining - mpr) * r = s.remaining * r - mpr * r := by
        ring
      simp only [EpState.remaining] at *
      rw [hexp]
      linarith

/-! ### The iterated month list -/

lemma monthsList_mem (k m : ℤ) (hm : m ∈ monthsList k) : 1 ≤ m ∧ m ≤ k := by
  unfold monthsList at hm
  rw [List.mem_map] at hm
  obtain ⟨i, hi, rfl⟩ := hm
  rw [List.mem_range] at hi
  simp only [Int.ofNat_eq_coe]
  omega

lemma monthsList_length (k : ℤ) : (monthsList k).length = k.toNat := by
  unfold monthsList
  rw [List.length_map, List.length_range]

lemma monthsList_succ (k : ℤ) (hk : 0 < k) :
    monthsList k = monthsList (k - 1) ++ [k] := by
  have h1 : k.toNat = (k - 1).toNat + 1 := by omega
  have h2 : Int.ofNat (k - 1).toNat + 1 = k := by
    simp only [Int.ofNat_eq_coe]
    omega
  unfold monthsList
  rw [h1, List.range_succ, List.map_append, List.map_cons, List.map_nil, h2]

/-! ### Unfolding the branches of `mortgage_calculator` -/

lemma mc_ei_zero_rate (L : ℚ) (y : ℤ) (hy : y ≠ 0) :
    mortgage_calculator L 0 y "equal_installment" =
      .ok (.equalInstallment (L / ((y * 12 : ℤ) : ℚ))
        (L / ((y * 12 : ℤ) : ℚ) * ((y * 12 : ℤ) : ℚ))
        (eiLoop 0 (L / ((y * 12 : ℤ) : ℚ)) (y * 12) (monthsList (y * 12)) L)) := by
  simp [mortgage_calculator, pydiv, hy]

lemma mc_ei_pos_rate (L rate : ℚ) (y : ℤ) (hr : rate ≠ 0) (hy : ¬ y * 12 < 0)
    (hd : (1 + rate / 12) ^ ((y * 12 : ℤ)) - 1 ≠ 0) :
    mortgage_calculator L rate y "equal_installment" =
      .ok (.equalInstallment
        (L * (rate / 12) * (1 + rate / 12) ^ ((y * 12 : ℤ)) /
          ((1 + rate / 12) ^ ((y * 12 : ℤ)) - 1))
        (L * (rate / 12) * (1 + rate / 12) ^ ((y * 12 : ℤ)) /
          ((1 + rate / 12) ^ ((y * 12 : ℤ)) - 1) * ((y * 12 : ℤ) : ℚ))
        (eiLoop (rate / 12)
          (L * (rate / 12) * (1 + rate / 12) ^ ((y * 12 : ℤ)) /
            ((1 + rate / 12) ^ ((y * 12 : ℤ)) - 1))
          (y * 12) (monthsList (y * 12)) L)) := by
  have hr12 : rate / 12 ≠ 0 := by
    simp [div_eq_zero_iff, hr]
  simp [mortgage_calculator, pypow, pydiv, hr12, hy, hd]

lemma mc_ep (L rate : ℚ) (y : ℤ) (hy : y ≠ 0) :
    mortgage_calculator L rate y "equal_principal" =
      .ok (.equalPrincipal
        (epLoop (rate / 12) (L / ((y * 12 : ℤ) : ℚ)) (y * 12)
          (monthsList (y * 12)) ⟨L, none, none, 0⟩).2.first_month_payment
        (epLoop (rate / 12) (L / ((y * 12 : ℤ) : ℚ)) (y * 12)
          (monthsList (y * 12)) ⟨L, none, none, 0⟩).2.last_month_payment
        (epLoop (rate / 12) (L / ((y * 12 : ℤ) : ℚ)) (y * 12)
          (monthsList (y * 12)) ⟨L, none, none, 0⟩).2.total_payment
        (epLoop (rate / 12) (L / ((y * 12 : ℤ) : ℚ)) (y * 12)
          (monthsList (y * 12)) ⟨L, none, none, 0⟩).1) := by
  simp [mortgage_calculator, pydiv, hy]

lemma mc_zero_term_ei (L rate : ℚ) :
    mortgage_calculator L rate 0 "equal_installment" =
      .error .zeroDivisionError := by
  by_cases hr : rate / 12 = 0
  · simp [mortgage_calculator, pydiv, hr]
  · simp [mortgage_calculator, pypow, pydiv, hr]

lemma mc_zero_term_ep (L rate : ℚ) :
    mortgage_calculator L rate 0 "equal_principal" =
      .error .zeroDivisionError := by
  simp [mortgage_calculator, pydiv]

/-! ### The final balance of the `equal_installment` recurrence -/

lemma eiIter_succ (r mp : ℚ) (k : ℕ) :
    ∀ rb, eiIter r mp (k + 1) rb =
      eiIter r mp k rb - (mp - eiIter r mp k rb * r) := by
  induction k with
  | zero => intro rb; rfl
  | succ k ih => intro rb; exact ih _

lemma zpow_toNat_eq (a : ℚ) (k : ℤ) (hk : 0 ≤ k) : a ^ k = a ^ k.toNat := by
  rw [← zpow_natCast a k.toNat, Int.toNat_of_nonneg hk]

/-- With the annuity payment, the exact balance after `N` months is `0`. -/
lemma annuity_final_balance (L r : ℚ) (N : ℕ) (hr : r ≠ 0)
    (hQ : (1 + r) ^ N - 1 ≠ 0) :
    eiIter r (L * r * (1 + r) ^ N / ((1 + r) ^ N - 1)) N L = 0 := by
  rw [eiIter_closed _ _ hr]
  field_simp
  ring

/-- With the zero-rate payment `L / N`, the exact balance after `N` months is
`0`. -/
lemma zero_rate_final_balance (L : ℚ) (N : ℕ) (hN : (N : ℚ) ≠ 0) :
    eiIter 0 (L / (N : ℚ)) N L = 0 := by
  rw [eiIter_zero_rate]
  field_simp

/-- Main decomposition of the `equal_installment` schedule: when the exact
balance after the last month is `0`, the residual fold fires, the principal
portions sum to exactly the loan amount, and the last entry's balance is
exactly `0`. -/
lemma eiLoop_main (r mp L : ℚ) (n : ℤ) (hn : 0 < n)
    (hfin : eiIter r mp n.toNat L = 0) :
    ((eiLoop r mp n (monthsList n) L).map PaymentScheduleEntry.principal).sum
        = L ∧
      ∃ e, (eiLoop r mp n (monthsList n) L).getLast? = some e ∧
        e.remaining_balance = 0 := by
  obtain ⟨K, hK⟩ : ∃ K, n.toNat = K + 1 := ⟨n.toNat - 1, by omega⟩
  have hpre : ∀ m ∈ monthsList (n - 1), m ≠ n := by
    intro m hm
    have := monthsList_mem (n - 1) m hm
    omega
  have hsplit := monthsList_succ n hn
  have hlen : (monthsList (n - 1)).length = K := by
    rw [monthsList_length]; omega
  have happ := eiLoop_append r mp n (monthsList (n - 1)) [n] L hpre
  rw [hlen] at happ
  have hrb1 : eiIter r mp K L - (mp - eiIter r mp K L * r) = 0 := by
    rw [← eiIter_succ, ← hK]
    exact hfin
  have habs : |eiIter r mp K L - (mp - eiIter r mp K L * r)| < 1/100 := by
    rw [hrb1]
    norm_num
  have hlast : eiLoop r mp n [n] (eiIter r mp K L) =
      [⟨n, mp, mp - eiIter r mp K L * r, eiIter r mp K L * r, 0⟩] := by
    show (if n = n ∧
          |eiIter r mp K L - (mp - eiIter r mp K L * r)| < 1/100 then
        (⟨n, mp, (mp - eiIter r mp K L * r) +
            (eiIter r mp K L - (mp - eiIter r mp K L * r)),
          eiIter r mp K L * r, 0⟩ : PaymentScheduleEntry) ::
          eiLoop r mp n [] 0
      else
        (⟨n, mp, mp - eiIter r mp K L * r, eiIter r mp K L * r,
          eiIter r mp K L - (mp - eiIter r mp K L * r)⟩ :
            PaymentScheduleEntry) ::
          eiLoop r mp n [] (eiIter r mp K L - (mp - eiIter r mp K L * r)))
      = [⟨n, mp, mp - eiIter r mp K L * r, eiIter r mp K L * r, 0⟩]
    rw [if_pos ⟨rfl, habs⟩, hrb1]
    simp [eiLoop]
  have hfull : eiLoop r mp n (monthsList n) L =
      eiLoop r mp n (monthsList (n - 1)) L ++
        [⟨n, mp, mp - eiIter r mp K L * r, eiIter r mp K L * r, 0⟩] := by
    rw [hsplit, happ, hlast]
  constructor
  · rw [hfull, List.map_append, List.sum_append,
      eiLoop_sum_principal r mp n (monthsList (n - 1)) L hpre, hlen]
    simp only [List.map_cons, List.map_nil, List.sum_cons, List.sum_nil]
    have hstep : mp - eiIter r mp K L * r = eiIter r mp K L := by
      linarith [hrb1]
    rw [hstep]
    ring
  · refine ⟨⟨n, mp, mp - eiIter r mp K L * r, eiIter r mp K L * r, 0⟩, ?_, rfl⟩
    rw [hfull, List.getLast?_append_cons]
    rfl

/-! ### Further helper lemmas -/

lemma annuity_denom_nat_ne_zero (rate : ℚ) (N : ℕ) (hN : N ≠ 0)
    (hr : -12 < rate) (h0 : rate ≠ 0) :
    (1 + rate / 12) ^ N - 1 ≠ 0 := by
  rcases lt_or_gt_of_ne h0 with hneg | hpos
  · exact sub_ne_zero.mpr
      (ne_of_lt (pow_lt_one₀ (by linarith) (by linarith) hN))
  · exact sub_ne_zero.mpr (ne_of_gt (one_lt_pow₀ (by linarith) hN))

lemma annuity_denom_ne_zero (rate : ℚ) (y : ℤ) (hy : 0 < y) (hr : -12 < rate)
    (h0 : rate ≠ 0) :
    (1 + rate / 12) ^ ((y * 12 : ℤ)) - 1 ≠ 0 := by
  rw [zpow_toNat_eq _ _ (by omega)]
  exact annuity_denom_nat_ne_zero rate (y * 12).toNat (by omega) hr h0

lemma total_months_cast (y : ℤ) (hy : 0 < y) :
    ((y * 12 : ℤ) : ℚ) = (((y * 12).toNat : ℕ) : ℚ) := by
  have h : ((y * 12).toNat : ℤ) = y * 12 := Int.toNat_of_nonneg (by omega)
  conv_lhs => rw [← h]
  push_cast
  ring

lemma month_index_of_map (d : List PaymentScheduleEntry) (n : ℤ)
    (hmap : d.map PaymentScheduleEntry.month = monthsList n)
    (i : ℕ) (h : i < d.length) :
    (d.get ⟨i, h⟩).month = (i : ℤ) + 1 := by
  have h1 : (d.map PaymentScheduleEntry.month)[i]? =
      some ((d.get ⟨i, h⟩).month) := by
    rw [List.getElem?_map, List.getElem?_eq_getElem h]
    rw [List.get_eq_getElem]
    rfl
  rw [hmap] at h1
  have hiN : i < n.toNat := by
    have := congrArg List.length hmap
    rw [List.length_map, monthsList_length] at this
    omega
  have h2 : (monthsList n)[i]? = some (Int.ofNat i + 1) := by
    unfold monthsList
    rw [List.getElem?_map, List.getElem?_range hiN]
    rfl
  rw [h2] at h1
  have h3 := Option.some_inj.mp h1
  rw [← h3, Int.ofNat_eq_coe]

lemma getLast?_eq_get {α : Type} (l : List α) (K : ℕ) (hK : l.length = K + 1) :
    l.getLast? = some (l.get ⟨K, by omega⟩) := by
  have h1 : l.length - 1 = K := by omega
  rw [List.getLast?_eq_getElem? (l := l), h1,
    List.getElem?_eq_getElem (by omega)]
  rw [List.get_eq_getElem]

/-! ### Claim theorems -/

/-- C1 counterexample: the precondition-violating input `principal = 0`
(with `termYears = 1`, rate `0`, policy `equal_installment`) does NOT raise
any error: the call returns a schedule normally, so no
`InvalidParameterError` is raised before producing a schedule. -/
theorem no_invalid_parameter_error_cx :
    isErr (mortgage_calculator 0 0 1 "equal_installment") = false := by
  rw [mc_ei_zero_rate 0 1 (by norm_num)]
  rfl

/-- C1 (amended): `mortgage_calculator` performs no parameter validation.
Any principal (including `0` and negatives) and any rate above `-12` are
accepted with `termYears > 0` under both policies, returning a schedule with
no error; `termYears = 0` instead raises `ZeroDivisionError`; no
`InvalidParameterError` exists in the code. -/
theorem no_parameter_validation (L rate : ℚ) (y : ℤ)
    (hr : -12 < rate) (hy : 0 < y) :
    isErr (mortgage_calculator L rate y "equal_installment") = false ∧
      isErr (mortgage_calculator L rate y "equal_principal") = false ∧
      mortgage_calculator L rate 0 "equal_installment" =
        .error .zeroDivisionError ∧
      mortgage_calculator L rate 0 "equal_principal" =
        .error .zeroDivisionError := by
  refine ⟨?_, ?_, mc_zero_term_ei L rate, mc_zero_term_ep L rate⟩
  · by_cases h0 : rate = 0
    · subst h0
      rw [mc_ei_zero_rate L y (by omega)]
      rfl
    · rw [mc_ei_pos_rate L rate y h0 (by omega)
        (annuity_denom_ne_zero rate y hy hr h0)]
      rfl
  · rw [mc_ep L rate y (by omega)]
    rfl

/-- Witness for `no_parameter_validation` at the concrete invalid input
`principal = 0`, `rate = 0`, `termYears = 1`. -/
theorem no_parameter_validation_witness :
    (-12 : ℚ) < 0 ∧ (0 : ℤ) < 1 ∧
      (isErr (mortgage_calculator 0 0 1 "equal_installment") = false ∧
        isErr (mortgage_calculator 0 0 1 "equal_principal") = false ∧
        mortgage_calculator 0 0 0 "equal_installment" =
          .error .zeroDivisionError ∧
        mortgage_calculator 0 0 0 "equal_principal" =
          .error .zeroDivisionError) :=
  ⟨by norm_num, by norm_num, no_parameter_validation 0 0 1 (by norm_num)
    (by norm_num)⟩

/-- C3: under `equal_installment` with a valid input, the monthly payment is
the annuity formula when the rate is positive, every entry's payment equals
the monthly payment, and the total payment is `monthlyPayment * totalMonths`. -/
theorem equal_installment_payment_total (L rate : ℚ) (y : ℤ)
    (hL : 0 < L) (hy : 0 < y) (hr : 0 ≤ rate) :
    ∃ mp tp d, mortgage_calculator L rate y "equal_installment" =
        .ok (.equalInstallment mp tp d) ∧
      (0 < rate → mp = L * (rate / 12) * (1 + rate / 12) ^ ((y * 12 : ℤ)) /
          ((1 + rate / 12) ^ ((y * 12 : ℤ)) - 1)) ∧
      (∀ e ∈ d, e.payment = mp) ∧
      tp = mp * ((y * 12 : ℤ) : ℚ) := by
  by_cases h0 : rate = 0
  · subst h0
    refine ⟨_, _, _, mc_ei_zero_rate L y (by omega), ?_, ?_, rfl⟩
    · intro h; linarith
    · exact fun e he => eiLoop_payment _ _ _ _ _ e he
  · have hrpos : 0 < rate := lt_of_le_of_ne hr (Ne.symm h0)
    refine ⟨_, _, _, mc_ei_pos_rate L rate y h0 (by omega)
      (annuity_denom_ne_zero rate y hy (by linarith) h0), ?_, ?_, rfl⟩
    · intro _; rfl
    · exact fun e he => eiLoop_payment _ _ _ _ _ e he

/-- Witness for `equal_installment_payment_total` at the spec's scenario
input `principal = 1300000`, `rate = 0.026`, `term = 20` years. -/
theorem equal_installment_payment_total_witness :
    (0 : ℚ) < 1300000 ∧ (0 : ℤ) < 20 ∧ (0 : ℚ) ≤ 26/1000 ∧
      (∃ mp tp d, mortgage_calculator 1300000 (26/1000) 20
          "equal_installment" = .ok (.equalInstallment mp tp d) ∧
        (0 < (26/1000 : ℚ) →
          mp = 1300000 * ((26/1000 : ℚ) / 12) *
              (1 + (26/1000 : ℚ) / 12) ^ ((20 * 12 : ℤ)) /
            ((1 + (26/1000 : ℚ) / 12) ^ ((20 * 12 : ℤ)) - 1)) ∧
        (∀ e ∈ d, e.payment = mp) ∧
        tp = mp * (((20 : ℤ) * 12 : ℤ) : ℚ)) :=
  ⟨by norm_num, by norm_num, by norm_num,
    equal_installment_payment_total 1300000 (26/1000) 20 (by norm_num)
      (by norm_num) (by norm_num)⟩

/-- C7: any payment method other than the two supported ones makes
`mortgage_calculator` fail with the `ValueError` (the spec's
`UnsupportedPolicyError`), with no schedule computed. -/
theorem unknown_policy_raises_value_error (L rate : ℚ) (y : ℤ) (m : String)
    (h1 : m ≠ "equal_installment") (h2 : m ≠ "equal_principal") :
    mortgage_calculator L rate y m = .error .valueError := by
  simp [mortgage_calculator, h1, h2]

/-- Witness for `unknown_policy_raises_value_error` at the spec's invalid
policy string. -/
theorem unknown_policy_raises_value_error_witness :
    ("unknown" ≠ "equal_installment") ∧ ("unknown" ≠ "equal_principal") ∧
      mortgage_calculator 1300000 (26/1000) 20 "unknown" =
        .error .valueError :=
  ⟨by decide, by decide,
    unknown_policy_raises_value_error 1300000 (26/1000) 20 "unknown"
      (by decide) (by decide)⟩

/-- C8: with a zero annual rate under `equal_installment`, the monthly
payment is `principal / totalMonths` and every entry's interest is `0`. -/
theorem zero_rate_payment_and_interest (L : ℚ) (y : ℤ)
    (hL : 0 < L) (hy : 0 < y) :
    ∃ tp d, mortgage_calculator L 0 y "equal_installment" =
        .ok (.equalInstallment (L / ((y * 12 : ℤ) : ℚ)) tp d) ∧
      ∀ e ∈ d, e.interest = 0 := by
  refine ⟨_, _, mc_ei_zero_rate L y (by omega), ?_⟩
  exact fun e he => eiLoop_interest_zero _ _ _ _ e he

/-- Witness for `zero_rate_payment_and_interest` at `principal = 1200`,
`termYears = 1`. -/
theorem zero_rate_payment_and_interest_witness :
    (0 : ℚ) < 1200 ∧ (0 : ℤ) < 1 ∧
      (∃ tp d, mortgage_calculator 1200 0 1 "equal_installment" =
          .ok (.equalInstallment (1200 / (((1 : ℤ) * 12 : ℤ) : ℚ)) tp d) ∧
        ∀ e ∈ d, e.interest = 0) :=
  ⟨by norm_num, by norm_num,
    zero_rate_payment_and_interest 1200 1 (by norm_num) (by norm_num)⟩

/-- C9: the computation is pure and deterministic — two invocations on
identical inputs return identical results (the embedding is a total
function, with no side effects). -/
theorem mortgage_calculator_deterministic (L1 L2 rate1 rate2 : ℚ)
    (y1 y2 : ℤ) (m1 m2 : String)
    (hL : L1 = L2) (hr : rate1 = rate2) (hy : y1 = y2) (hm : m1 = m2) :
    mortgage_calculator L1 rate1 y1 m1 = mortgage_calculator L2 rate2 y2 m2 := by
  rw [hL, hr, hy, hm]

/-- Witness for `mortgage_calculator_deterministic` at the spec's scenario
input. -/
theorem mortgage_calculator_deterministic_witness :
    mortgage_calculator 1300000 (26/1000) 20 "equal_installment" =
      mortgage_calculator 1300000 (26/1000) 20 "equal_installment" :=
  mortgage_calculator_deterministic 1300000 1300000 (26/1000) (26/1000)
    20 20 "equal_installment" "equal_installment" rfl rfl rfl rfl

/-- C10: with `loan_years = 0` (violating the spec precondition
`termYears > 0`) both policies reach a division by zero
(`ZeroDivisionError`) at the public interface instead of a validation
error. -/
theorem zero_term_reaches_division_by_zero (L rate : ℚ) :
    mortgage_calculator L rate 0 "equal_installment" =
        .error .zeroDivisionError ∧
      mortgage_calculator L rate 0 "equal_principal" =
        .error .zeroDivisionError :=
  ⟨mc_zero_term_ei L rate, mc_zero_term_ep L rate⟩

lemma scheduleOf_ei (L rate : ℚ) (y : ℤ) (hy : 0 < y) (hr : 0 ≤ rate) :
    ∃ r mp, scheduleOf (mortgage_calculator L rate y "equal_installment") =
      eiLoop r mp (y * 12) (monthsList (y * 12)) L := by
  by_cases h0 : rate = 0
  · subst h0
    refine ⟨0, L / ((y * 12 : ℤ) : ℚ), ?_⟩
    rw [mc_ei_zero_rate L y (by omega)]
    rfl
  · have hrpos : 0 < rate := lt_of_le_of_ne hr (Ne.symm h0)
    refine ⟨rate / 12,
      L * (rate / 12) * (1 + rate / 12) ^ ((y * 12 : ℤ)) /
        ((1 + rate / 12) ^ ((y * 12 : ℤ)) - 1), ?_⟩
    rw [mc_ei_pos_rate L rate y h0 (by omega)
      (annuity_denom_ne_zero rate y hy (by linarith) h0)]
    rfl

lemma scheduleOf_ep (L rate : ℚ) (y : ℤ) (hy : 0 < y) :
    scheduleOf (mortgage_calculator L rate y "equal_principal") =
      (epLoop (rate / 12) (L / ((y * 12 : ℤ) : ℚ)) (y * 12)
        (monthsList (y * 12)) ⟨L, none, none, 0⟩).1 := by
  rw [mc_ep L rate y (by omega)]
  rfl

lemma get_congr {α : Type} (l l' : List α) (h : l = l') (i : ℕ)
    (hi : i < l.length) :
    l.get ⟨i, hi⟩ = l'.get ⟨i, by rw [← h]; exact hi⟩ := by
  subst h
  rfl

/-- C6: for every valid input and both policies, the schedule has exactly
`termYears * 12` entries and the entry at position `i` carries month index
`i + 1`, ascending from `1` to `totalMonths`. -/
theorem schedule_length_and_month_indices (L rate : ℚ) (y : ℤ)
    (hL : 0 < L) (hy : 0 < y) (hr : 0 ≤ rate) :
    (((scheduleOf (mortgage_calculator L rate y
          "equal_installment")).length : ℤ) = y * 12 ∧
      ∀ i (h : i < (scheduleOf (mortgage_calculator L rate y
          "equal_installment")).length),
        ((scheduleOf (mortgage_calculator L rate y "equal_installment")).get
            ⟨i, h⟩).month = (i : ℤ) + 1) ∧
    (((scheduleOf (mortgage_calculator L rate y
          "equal_principal")).length : ℤ) = y * 12 ∧
      ∀ i (h : i < (scheduleOf (mortgage_calculator L rate y
          "equal_principal")).length),
        ((scheduleOf (mortgage_calculator L rate y "equal_principal")).get
            ⟨i, h⟩).month = (i : ℤ) + 1) := by
  obtain ⟨r, mp, hei⟩ := scheduleOf_ei L rate y hy hr
  have hep := scheduleOf_ep L rate y hy
  refine ⟨⟨?_, ?_⟩, ?_, ?_⟩
  · rw [hei, eiLoop_length, monthsList_length]
    omega
  · intro i h
    have hmap : (scheduleOf (mortgage_calculator L rate y
        "equal_installment")).map PaymentScheduleEntry.month =
        monthsList (y * 12) := by
      rw [hei]
      exact eiLoop_month_map _ _ _ _ _
    exact month_index_of_map _ _ hmap i h
  · rw [hep, epLoop_length, monthsList_length]
    omega
  · intro i h
    have hmap : (scheduleOf (mortgage_calculator L rate y
        "equal_principal")).map PaymentScheduleEntry.month =
        monthsList (y * 12) := by
      rw [hep]
      exact epLoop_month_map _ _ _ _ _
    exact month_index_of_map _ _ hmap i h

/-- Witness for `schedule_length_and_month_indices` at the spec's scenario
input. -/
theorem schedule_length_and_month_indices_witness :
    (0 : ℚ) < 1300000 ∧ (0 : ℤ) < 20 ∧ (0 : ℚ) ≤ 26/1000 ∧
      ((((scheduleOf (mortgage_calculator 1300000 (26/1000) 20
            "equal_installment")).length : ℤ) = 20 * 12 ∧
        ∀ i (h : i < (scheduleOf (mortgage_calculator 1300000 (26/1000) 20
            "equal_installment")).length),
          ((scheduleOf (mortgage_calculator 1300000 (26/1000) 20
              "equal_installment")).get ⟨i, h⟩).month = (i : ℤ) + 1) ∧
      ((((scheduleOf (mortgage_calculator 1300000 (26/1000) 20
            "equal_principal")).length : ℤ) = 20 * 12 ∧
        ∀ i (h : i < (scheduleOf (mortgage_calculator 1300000 (26/1000) 20
            "equal_principal")).length),
          ((scheduleOf (mortgage_calculator 1300000 (26/1000) 20
              "equal_principal")).get ⟨i, h⟩).month = (i : ℤ) + 1))) :=
  ⟨by norm_num, by norm_num, by norm_num,
    schedule_length_and_month_indices 1300000 (26/1000) 20 (by norm_num)
      (by norm_num) (by norm_num)⟩

/-- C5: under `equal_principal` with a valid input, every entry's principal
portion equals `principal / totalMonths`, and the payment is non-increasing
month over month (strictly decreasing as soon as the rate is positive). -/
theorem equal_principal_identical_principal_monotone_payment (L rate : ℚ)
    (y : ℤ) (hL : 0 < L) (hy : 0 < y) (hr : 0 ≤ rate) :
    (∀ e ∈ scheduleOf (mortgage_calculator L rate y "equal_principal"),
        e.principal = L / ((y * 12 : ℤ) : ℚ)) ∧
      List.Chain' (fun a b => b.payment ≤ a.payment)
        (scheduleOf (mortgage_calculator L rate y "equal_principal")) ∧
      (0 < rate → List.Chain' (fun a b => b.payment < a.payment)
        (scheduleOf (mortgage_calculator L rate y "equal_principal"))) := by
  have hep := scheduleOf_ep L rate y hy
  have hn : (0 : ℚ) < ((y * 12 : ℤ) : ℚ) := by
    exact_mod_cast (by omega : (0 : ℤ) < y * 12)
  have hmpr : 0 < L / ((y * 12 : ℤ) : ℚ) := div_pos hL hn
  refine ⟨?_, ?_, ?_⟩
  · rw [hep]
    exact fun e he => epLoop_principal _ _ _ _ _ e he
  · rw [hep]
    exact epLoop_chain_le _ _ _
      (mul_nonneg hmpr.le (div_nonneg hr (by norm_num))) _ _
  · intro hpos
    rw [hep]
    exact epLoop_chain_lt _ _ _
      (mul_pos hmpr (div_pos hpos (by norm_num))) _ _

/-- Witness for `equal_principal_identical_principal_monotone_payment` at
the spec's scenario input. -/
theorem equal_principal_identical_principal_monotone_payment_witness :
    (0 : ℚ) < 1300000 ∧ (0 : ℤ) < 20 ∧ (0 : ℚ) ≤ 26/1000 ∧
      ((∀ e ∈ scheduleOf (mortgage_calculator 1300000 (26/1000) 20
            "equal_principal"),
          e.principal = 1300000 / (((20 : ℤ) * 12 : ℤ) : ℚ)) ∧
        List.Chain' (fun a b => b.payment ≤ a.payment)
          (scheduleOf (mortgage_calculator 1300000 (26/1000) 20
            "equal_principal")) ∧
        (0 < (26/1000 : ℚ) → List.Chain' (fun a b => b.payment < a.payment)
          (scheduleOf (mortgage_calculator 1300000 (26/1000) 20
            "equal_principal")))) :=
  ⟨by norm_num, by norm_num, by norm_num,
    equal_principal_identical_principal_monotone_payment 1300000 (26/1000)
      20 (by norm_num) (by norm_num) (by norm_num)⟩

/-- C2: for every valid input, under both policies the principal portions
sum to the original principal within `0.01` and the final entry's remaining
balance is `0` (exactly for `equal_installment` thanks to the residual fold,
and within `0.01` for `equal_principal`). -/
theorem principal_sum_and_final_balance (L rate : ℚ) (y : ℤ)
    (hL : 0 < L) (hy : 0 < y) (hr : 0 ≤ rate) :
    (|((scheduleOf (mortgage_calculator L rate y "equal_installment")).map
          PaymentScheduleEntry.principal).sum - L| ≤ 1/100 ∧
      ∃ e, (scheduleOf (mortgage_calculator L rate y
          "equal_installment")).getLast? = some e ∧
        e.remaining_balance = 0) ∧
    (|((scheduleOf (mortgage_calculator L rate y "equal_principal")).map
          PaymentScheduleEntry.principal).sum - L| ≤ 1/100 ∧
      ∃ e, (scheduleOf (mortgage_calculator L rate y
          "equal_principal")).getLast? = some e ∧
        |e.remaining_balance| ≤ 1/100) := by
  have hN0 : (y * 12).toNat ≠ 0 := by omega
  have hcast := total_months_cast y hy
  constructor
  · by_cases h0 : rate = 0
    · subst h0
      have hsched : scheduleOf (mortgage_calculator L 0 y
          "equal_installment") =
          eiLoop 0 (L / ((y * 12 : ℤ) : ℚ)) (y * 12) (monthsList (y * 12))
            L := by
        rw [mc_ei_zero_rate L y (by omega)]
        rfl
      have hfin : eiIter 0 (L / ((y * 12 : ℤ) : ℚ)) (y * 12).toNat L = 0 := by
        rw [hcast]
        exact zero_rate_final_balance L _ (by exact_mod_cast hN0)
      obtain ⟨hsum, hlast⟩ := eiLoop_main 0 (L / ((y * 12 : ℤ) : ℚ)) L
        (y * 12) (by omega) hfin
      rw [hsched]
      refine ⟨?_, hlast⟩
      rw [hsum]
      norm_num
    · have hrpos : 0 < rate := lt_of_le_of_ne hr (Ne.symm h0)
      have hdz := annuity_denom_ne_zero rate y hy (by linarith) h0
      have hdn := annuity_denom_nat_ne_zero rate (y * 12).toNat hN0
        (by linarith) h0
      have hr12 : rate / 12 ≠ 0 := by
        simp [div_eq_zero_iff, h0]
      have hsched : scheduleOf (mortgage_calculator L rate y
          "equal_installment") =
          eiLoop (rate / 12)
            (L * (rate / 12) * (1 + rate / 12) ^ ((y * 12 : ℤ)) /
              ((1 + rate / 12) ^ ((y * 12 : ℤ)) - 1))
            (y * 12) (monthsList (y * 12)) L := by
        rw [mc_ei_pos_rate L rate y h0 (by omega) hdz]
        rfl
      have hfin : eiIter (rate / 12)
          (L * (rate / 12) * (1 + rate / 12) ^ ((y * 12 : ℤ)) /
            ((1 + rate / 12) ^ ((y * 12 : ℤ)) - 1)) (y * 12).toNat L = 0 := by
        rw [zpow_toNat_eq (1 + rate / 12) (y * 12) (by omega)]
        exact annuity_final_balance L (rate / 12) _ hr12 hdn
      obtain ⟨hsum, hlast⟩ := eiLoop_main (rate / 12)
        (L * (rate / 12) * (1 + rate / 12) ^ ((y * 12 : ℤ)) /
          ((1 + rate / 12) ^ ((y * 12 : ℤ)) - 1)) L (y * 12) (by omega) hfin
      rw [hsched]
      refine ⟨?_, hlast⟩
      rw [hsum]
      norm_num
  · have hep := scheduleOf_ep L rate y hy
    have hNq : (((y * 12).toNat : ℕ) : ℚ) ≠ 0 := by exact_mod_cast hN0
    constructor
    · rw [hep, epLoop_sum_principal, monthsList_length, hcast]
      have hLeq : (((y * 12).toNat : ℕ) : ℚ) *
          (L / (((y * 12).toNat : ℕ) : ℚ)) = L := by
        field_simp
      rw [hLeq]
      norm_num
    · obtain ⟨K, hK⟩ : ∃ K, (y * 12).toNat = K + 1 :=
        ⟨(y * 12).toNat - 1, by omega⟩
      have hlen : ((epLoop (rate / 12) (L / ((y * 12 : ℤ) : ℚ)) (y * 12)
          (monthsList (y * 12)) ⟨L, none, none, 0⟩).1).length = K + 1 := by
        rw [epLoop_length, monthsList_length, hK]
      rw [hep, getLast?_eq_get _ K hlen]
      refine ⟨_, rfl, ?_⟩
      rw [epLoop_remaining]
      show |L - ((K : ℚ) + 1) * (L / ((y * 12 : ℤ) : ℚ))| ≤ 1/100
      rw [hcast, hK]
      push_cast
      have hK1 : ((K : ℚ) + 1) ≠ 0 := by positivity
      have hz : L - ((K : ℚ) + 1) * (L / ((K : ℚ) + 1)) = 0 := by
        field_simp
      rw [hz]
      norm_num

/-- Witness for `principal_sum_and_final_balance` at the spec's scenario
input. -/
theorem principal_sum_and_final_balance_witness :
    (0 : ℚ) < 1300000 ∧ (0 : ℤ) < 20 ∧ (0 : ℚ) ≤ 26/1000 ∧
      ((|((scheduleOf (mortgage_calculator 1300000 (26/1000) 20
            "equal_installment")).map
            PaymentScheduleEntry.principal).sum - 1300000| ≤ 1/100 ∧
        ∃ e, (scheduleOf (mortgage_calculator 1300000 (26/1000) 20
            "equal_installment")).getLast? = some e ∧
          e.remaining_balance = 0) ∧
      (|((scheduleOf (mortgage_calculator 1300000 (26/1000) 20
            "equal_principal")).map
            PaymentScheduleEntry.principal).sum - 1300000| ≤ 1/100 ∧
        ∃ e, (scheduleOf (mortgage_calculator 1300000 (26/1000) 20
            "equal_principal")).getLast? = some e ∧
          |e.remaining_balance| ≤ 1/100)) :=
  ⟨by norm_num, by norm_num, by norm_num,
    principal_sum_and_final_balance 1300000 (26/1000) 20 (by norm_num)
      (by norm_num) (by norm_num)⟩

/-- C4 counterexample: under `equal_principal` with `principal = 100` and
`termYears = 1` (so `n = 12`, and `12` does not divide `100`), the final
remaining balance is nonetheless exactly `0` in exact arithmetic: reaching
`0` does not require the principal to be evenly divisible by the number of
months. -/
theorem equal_principal_zero_balance_nondivisible :
    (∃ e, (scheduleOf (mortgage_calculator 100 0 1
        "equal_principal")).getLast? = some e ∧ e.remaining_balance = 0) ∧
      ¬ ((12 : ℤ) ∣ 100) := by
  refine ⟨?_, by omega⟩
  rw [scheduleOf_ep 100 0 1 (by norm_num)]
  have hlen : ((epLoop ((0 : ℚ) / 12) ((100 : ℚ) / (((1 : ℤ) * 12 : ℤ) : ℚ))
      ((1 : ℤ) * 12) (monthsList ((1 : ℤ) * 12))
      ⟨100, none, none, 0⟩).1).length = 11 + 1 := by
    rw [epLoop_length, monthsList_length]
    rfl
  rw [getLast?_eq_get _ 11 hlen]
  refine ⟨_, rfl, ?_⟩
  rw [epLoop_remaining]
  show (100 : ℚ) - ((11 : ℕ) + 1) * (100 / (((1 : ℤ) * 12 : ℤ) : ℚ)) = 0
  norm_num

/-- C4 (amended): the `equal_principal` branch applies no end-of-loan
rounding correction: every entry's remaining balance is exactly the raw
value `principal - month * (principal / totalMonths)`, and in exact
arithmetic the final balance is therefore exactly `0` for every valid
input, irrespective of whether the principal is evenly divisible by the
number of months (divergence from `0` can only come from binary
floating-point rounding, not from the algorithm). -/
theorem equal_principal_raw_balances (L rate : ℚ) (y : ℤ)
    (hL : 0 < L) (hy : 0 < y) (hr : 0 ≤ rate) :
    (∀ i (h : i < (scheduleOf (mortgage_calculator L rate y
        "equal_principal")).length),
      ((scheduleOf (mortgage_calculator L rate y "equal_principal")).get
          ⟨i, h⟩).remaining_balance =
        L - ((i : ℚ) + 1) * (L / ((y * 12 : ℤ) : ℚ))) ∧
      ∃ e, (scheduleOf (mortgage_calculator L rate y
          "equal_principal")).getLast? = some e ∧ e.remaining_balance = 0 := by
  have hep := scheduleOf_ep L rate y hy
  have hcast := total_months_cast y hy
  have hN0 : (y * 12).toNat ≠ 0 := by omega
  constructor
  · intro i h
    have h2 : i < ((epLoop (rate / 12) (L / ((y * 12 : ℤ) : ℚ)) (y * 12)
        (monthsList (y * 12)) ⟨L, none, none, 0⟩).1).length := by
      rw [← hep]
      exact h
    rw [get_congr _ _ hep i h]
    exact epLoop_remaining _ _ _ _ _ i h2
  · obtain ⟨K, hK⟩ : ∃ K, (y * 12).toNat = K + 1 :=
      ⟨(y * 12).toNat - 1, by omega⟩
    have hlen : ((epLoop (rate / 12) (L / ((y * 12 : ℤ) : ℚ)) (y * 12)
        (monthsList (y * 12)) ⟨L, none, none, 0⟩).1).length = K + 1 := by
      rw [epLoop_length, monthsList_length, hK]
    rw [hep, getLast?_eq_get _ K hlen]
    refine ⟨_, rfl, ?_⟩
    rw [epLoop_remaining]
    show L - ((K : ℚ) + 1) * (L / ((y * 12 : ℤ) : ℚ)) = 0
    rw [hcast, hK]
    push_cast
    have hK1 : ((K : ℚ) + 1) ≠ 0 := by positivity
    field_simp

/-- Witness for `equal_principal_raw_balances` at `principal = 100`,
`rate = 0.05`, `termYears = 2`. -/
theorem equal_principal_raw_balances_witness :
    (0 : ℚ) < 100 ∧ (0 : ℤ) < 2 ∧ (0 : ℚ) ≤ 5/100 ∧
      ((∀ i (h : i < (scheduleOf (mortgage_calculator 100 (5/100) 2
          "equal_principal")).length),
        ((scheduleOf (mortgage_calculator 100 (5/100) 2
            "equal_principal")).get ⟨i, h⟩).remaining_balance =
          100 - ((i : ℚ) + 1) * (100 / (((2 : ℤ) * 12 : ℤ) : ℚ))) ∧
      ∃ e, (scheduleOf (mortgage_calculator 100 (5/100) 2
          "equal_principal")).getLast? = some e ∧ e.remaining_balance = 0) :=
  ⟨by norm_num, by norm_num, by norm_num,
    equal_principal_raw_balances 100 (5/100) 2 (by norm_num) (by norm_num)
      (by norm_num)⟩
